import Mathlib

/-!
Shallow embedding of `quilr_litellm_guardrails.py` (class `QuilrGuardrail`),
the Quilr guardrails integration for the LiteLLM proxy.

Python dictionaries are modelled with explicit `Option` fields: `none` for a
missing key (or a `None` value where the code only observes it through
`dict.get`).  The outbound moderation HTTP call is modelled as a function
parameter `api : ApiPayload → ApiOutcome`; each hook returns the list of
payloads it actually posted together with its outcome, so that "the endpoint
is never called" is the trace being empty.
-/

/-- A chat message dictionary.  The code only reads the keys `role` and
`content`, always through `.get`, so either may be absent. -/
structure Msg where
  role : Option String
  content : Option String
deriving DecidableEq, Repr

/-- The `input` field of a Responses-API request: either a bare string or a
list of message objects. -/
inductive InputData
  | str (s : String)
  | list (l : List Msg)
deriving DecidableEq, Repr

/-- Python truthiness of an optional string (`if s:`): present and non-empty. -/
def strTruthy : Option String → Bool
  | some s => s ≠ ""
  | none => false

/-- Python truthiness of an optional string list (`if l:`): present and
non-empty. -/
def optListTruthy : Option (List String) → Bool
  | some l => l ≠ []
  | none => false

/-- Python truthiness of the `input` field (`if not input_data:`). -/
def inputTruthy : InputData → Bool
  | .str s => s ≠ ""
  | .list l => l ≠ []

/-- Static configuration read from the environment in `__init__`. -/
structure GuardrailConfig where
  apiKey : Option String
  allowedModels : Option (List String)
  allowedKeyNames : Option (List String)
deriving DecidableEq, Repr

/-- The request `data` dict, restricted to the keys the guardrail reads or
writes.  `instructions` is doubly optional: the outer layer is key presence
(the code uses `"instructions" in data` and `del data["instructions"]`), the
inner layer is the value seen by `data.get("instructions")`.  `other` stands
for the remaining keys, which the hooks never touch. -/
structure RequestData where
  model : Option String
  messages : Option (List Msg)
  input : Option InputData
  instructions : Option (Option String)
  other : List (String × String)
deriving DecidableEq, Repr

/-- JSON body posted to `{base_url}/sdk/v1/check`: either
`{"messages": [...]}` or `{"text": "..."}`. -/
inductive ApiPayload
  | messages (ms : List Msg)
  | text (t : String)
deriving DecidableEq, Repr

/-- The decoded JSON verdict returned by the moderation endpoint. -/
structure ApiResult where
  status : Option String
  categoriesDetected : List String
  messages : Option (List Msg)
  processedText : Option String
deriving DecidableEq, Repr

/-- Outcome of one `_call_quilr_api` invocation: a decoded verdict, or any
transport failure (network error, `raise_for_status` on non-2xx, malformed
JSON), which the Python surfaces as a raised exception. -/
inductive ApiOutcome
  | ok (r : ApiResult)
  | fail
deriving DecidableEq, Repr

/-- Result of a hook: normal return of the (possibly mutated) value, a
`RejectedRequestError` carrying the block message, or any other exception
propagating to the host. -/
inductive HookResult (α : Type)
  | ok (a : α)
  | rejected (message : String)
  | error
deriving DecidableEq, Repr

/-- Python's `", ".join(categories)`. -/
def joinComma : List String → String
  | [] => ""
  | [c] => c
  | c :: c' :: cs => c ++ ", " ++ joinComma (c' :: cs)

/-- `_format_block_message`. -/
def formatBlockMessage (categories : List String) : String :=
  if categories ≠ [] then
    "Content blocked by Quilr: " ++ joinComma categories ++ " detected"
  else
    "Content blocked by Quilr"

/-- `_responses_input_to_messages`: flatten a Responses-API input (plus
optional instructions) into a chat message list. -/
def responsesInputToMessages (inputData : InputData) (instructions : Option String) :
    List Msg :=
  let sys : List Msg :=
    if strTruthy instructions then
      [⟨some "system", some (instructions.getD "")⟩]
    else []
  match inputData with
  | .str s => sys ++ [⟨some "user", some s⟩]
  | .list l => sys ++ l

/-- One step of the loop in `_messages_to_responses_input`: a system-role
message overwrites the pending instructions (with its possibly missing
content), any other message is appended to `input_messages`. -/
def splitStep (acc : Option String × List Msg) (m : Msg) : Option String × List Msg :=
  if m.role = some "system" then (m.content, acc.2)
  else (acc.1, acc.2 ++ [m])

/-- `_messages_to_responses_input`: convert a chat message list back to the
Responses-API `(instructions, input)` pair. -/
def messagesToResponsesInput (messages : List Msg) (originalInputWasString : Bool) :
    Option String × Option InputData :=
  let split := messages.foldl splitStep (none, [])
  let instructions := split.1
  let inputMessages := split.2
  if originalInputWasString ∧ inputMessages.length = 1 then
    (instructions, (inputMessages.head?.bind Msg.content).map InputData.str)
  else
    (instructions, if inputMessages ≠ [] then some (.list inputMessages) else none)

/-- `_should_apply_guardrail`. -/
def shouldApplyGuardrail (cfg : GuardrailConfig) (model : Option String)
    (keyName : Option String) : Bool :=
  if !optListTruthy cfg.allowedModels && !optListTruthy cfg.allowedKeyNames then
    true
  else
    let modelOk :=
      if optListTruthy cfg.allowedModels then
        strTruthy model && (cfg.allowedModels.getD []).contains (model.getD "")
      else true
    let keyOk :=
      if optListTruthy cfg.allowedKeyNames then
        strTruthy keyName && (cfg.allowedKeyNames.getD []).contains (keyName.getD "")
      else true
    modelOk && keyOk

/-- `async_pre_call_hook`.  `api` models `_call_quilr_api`; the first
component of the result is the list of payloads actually posted to the
moderation endpoint, the second the hook's outcome (the returned `data`,
a `RejectedRequestError`, or a propagated exception). -/
def preCallHook (cfg : GuardrailConfig) (keyName : Option String) (data : RequestData)
    (callType : String) (api : ApiPayload → ApiOutcome) :
    List ApiPayload × HookResult RequestData :=
  if ¬ strTruthy cfg.apiKey then ([], .ok data)
  else if ¬ shouldApplyGuardrail cfg data.model keyName then ([], .ok data)
  else
    let isResponsesApi := callType = "aresponses"
    let extracted : Option (List Msg × Bool) :=
      if isResponsesApi then
        match data.input with
        | none => none
        | some inp =>
          if ¬ inputTruthy inp then none
          else
            some (responsesInputToMessages inp data.instructions.join,
                  match inp with | .str _ => true | .list _ => false)
      else
        match data.messages with
        | none => none
        | some ms => if ms = [] then none else some (ms, false)
    match extracted with
    | none => ([], .ok data)
    | some (msgs, originalInputWasString) =>
      let payload := ApiPayload.messages msgs
      match api payload with
      | .fail => ([payload], .error)
      | .ok result =>
        let status := result.status.getD "safe"
        if status = "blocked" then
          ([payload], .rejected (formatBlockMessage result.categoriesDetected))
        else
          let data' :=
            if status = "redacted" then
              match result.messages with
              | some rms =>
                if rms ≠ [] then
                  if isResponsesApi then
                    let ni := messagesToResponsesInput rms originalInputWasString
                    let d1 :=
                      match ni.1 with
                      | some s => { data with instructions := some (some s) }
                      | none => { data with instructions := none }
                    match ni.2 with
                    | some i => { d1 with input := some i }
                    | none => d1
                  else { data with messages := some rms }
                else data
              | none => data
            else data
          ([payload], .ok data')

/-- `async_moderation_hook` (during-call mode).  Its Python body is a verbatim
duplicate of `async_pre_call_hook`'s; the method returns `None` but mutates
`data` in place, so the outcome carries the final state of `data`. -/
def moderationHook (cfg : GuardrailConfig) (keyName : Option String) (data : RequestData)
    (callType : String) (api : ApiPayload → ApiOutcome) :
    List ApiPayload × HookResult RequestData :=
  if ¬ strTruthy cfg.apiKey then ([], .ok data)
  else if ¬ shouldApplyGuardrail cfg data.model keyName then ([], .ok data)
  else
    let isResponsesApi := callType = "aresponses"
    let extracted : Option (List Msg × Bool) :=
      if isResponsesApi then
        match data.input with
        | none => none
        | some inp =>
          if ¬ inputTruthy inp then none
          else
            some (responsesInputToMessages inp data.instructions.join,
                  match inp with | .str _ => true | .list _ => false)
      else
        match data.messages with
        | none => none
        | some ms => if ms = [] then none else some (ms, false)
    match extracted with
    | none => ([], .ok data)
    | some (msgs, originalInputWasString) =>
      let payload := ApiPayload.messages msgs
      match api payload with
      | .fail => ([payload], .error)
      | .ok result =>
        let status := result.status.getD "safe"
        if status = "blocked" then
          ([payload], .rejected (formatBlockMessage result.categoriesDetected))
        else
          let data' :=
            if status = "redacted" then
              match result.messages with
              | some rms =>
                if rms ≠ [] then
                  if isResponsesApi then
                    let ni := messagesToResponsesInput rms originalInputWasString
                    let d1 :=
                      match ni.1 with
                      | some s => { data with instructions := some (some s) }
                      | none => { data with instructions := none }
                    match ni.2 with
                    | some i => { d1 with input := some i }
                    | none => d1
                  else { data with messages := some rms }
                else data
              | none => data
            else data
          ([payload], .ok data')

/-- The `message` attribute of a chat-completions choice (only `content` is
read or written by the guardrail). -/
structure ChatMessage where
  content : Option String
deriving DecidableEq, Repr

/-- One element of `response.choices` in a `litellm.ModelResponse`. -/
structure ChatChoice where
  message : Option ChatMessage
deriving DecidableEq, Repr

/-- One content part of a Responses-API output item (`type`, `text`). -/
structure ContentItem where
  ctype : Option String
  text : Option String
deriving DecidableEq, Repr

/-- One element of `response.output` in a `ResponsesAPIResponse`; `none`
content models a missing/`None` `content` attribute. -/
structure OutputItem where
  content : Option (List ContentItem)
deriving DecidableEq, Repr

/-- An LLM response object as seen by `async_post_call_success_hook`:
a `ResponsesAPIResponse`, a `litellm.ModelResponse`, or anything else
(returned untouched). -/
inductive LLMResponse
  | modelResponse (choices : List ChatChoice)
  | responsesApi (output : Option (List OutputItem))
  | other
deriving DecidableEq, Repr

/-- Prepend an (possibly updated) choice to the result of checking the
remaining choices. -/
def consChoice (c : ChatChoice) : HookResult (List ChatChoice) → HookResult (List ChatChoice)
  | .ok l => .ok (c :: l)
  | .rejected m => .rejected m
  | .error => .error

/-- The per-choice loop of `_check_chat_completions_output`: choices without a
message or without non-empty string content are skipped; each remaining choice
posts its content as `{"text": ...}` and applies the verdict. -/
def checkChatChoices (api : ApiPayload → ApiOutcome) :
    List ChatChoice → List ApiPayload × HookResult (List ChatChoice)
  | [] => ([], .ok [])
  | c :: rest =>
    match c.message with
    | none =>
      let r := checkChatChoices api rest
      (r.1, consChoice c r.2)
    | some m =>
      match m.content with
      | none =>
        let r := checkChatChoices api rest
        (r.1, consChoice c r.2)
      | some content =>
        if content = "" then
          let r := checkChatChoices api rest
          (r.1, consChoice c r.2)
        else
          let payload := ApiPayload.text content
          match api payload with
          | .fail => ([payload], .error)
          | .ok result =>
            let status := result.status.getD "safe"
            if status = "blocked" then
              ([payload], .rejected (formatBlockMessage result.categoriesDetected))
            else
              let c' :=
                if status = "redacted" then
                  match result.processedText with
                  | some pt =>
                    if pt ≠ "" then
                      { c with message := some { m with content := some pt } }
                    else c
                  | none => c
                else c
              let r := checkChatChoices api rest
              (payload :: r.1, consChoice c' r.2)

/-- `_check_chat_completions_output`, wrapped back into an `LLMResponse`. -/
def checkChatCompletionsOutput (api : ApiPayload → ApiOutcome)
    (choices : List ChatChoice) : List ApiPayload × HookResult LLMResponse :=
  let r := checkChatChoices api choices
  (r.1,
    match r.2 with
    | .ok cs => .ok (.modelResponse cs)
    | .rejected m => .rejected m
    | .error => .error)

/-- The collection predicate of `_check_responses_api_output`: a content part
with `type == "output_text"` and truthy `text`. -/
def isOutputTextItem (c : ContentItem) : Bool :=
  c.ctype = some "output_text" && strTruthy c.text

/-- The collection loop of `_check_responses_api_output`: all qualifying
content parts, in order, from output items with truthy `content`. -/
def collectOutputTexts (output : Option (List OutputItem)) : List ContentItem :=
  match output with
  | some items =>
    if items ≠ [] then
      items.foldl
        (fun acc it =>
          match it.content with
          | some cs => if cs ≠ [] then acc ++ cs.filter isOutputTextItem else acc
          | none => acc)
        []
    else []
  | none => []

/-- The redaction mutation on one content list: the `k`-th qualifying item
overall (threaded counter) gets `processed_text` if it is the first, and `""`
otherwise; everything else is untouched. -/
def redactContentList (pt : String) : List ContentItem → Nat → List ContentItem × Nat
  | [], k => ([], k)
  | c :: cs, k =>
    if isOutputTextItem c then
      let r := redactContentList pt cs (k + 1)
      ({ c with text := some (if k = 0 then pt else "") } :: r.1, r.2)
    else
      let r := redactContentList pt cs k
      (c :: r.1, r.2)

/-- The redaction mutation across all output items, threading the qualifying
item counter. -/
def redactOutputList (pt : String) : List OutputItem → Nat → List OutputItem × Nat
  | [], k => ([], k)
  | it :: its, k =>
    match it.content with
    | some cs =>
      let r := redactContentList pt cs k
      let rest := redactOutputList pt its r.2
      ({ it with content := some r.1 } :: rest.1, rest.2)
    | none =>
      let rest := redactOutputList pt its k
      (it :: rest.1, rest.2)

/-- The in-place redaction of `_check_responses_api_output` as a function on
the whole `output` field. -/
def redactOutput (output : Option (List OutputItem)) (pt : String) :
    Option (List OutputItem) :=
  output.map fun items => (redactOutputList pt items 0).1

/-- `_check_responses_api_output`: concatenate all qualifying text parts with
newlines, post them as `{"text": ...}`, and apply the verdict. -/
def checkResponsesApiOutput (api : ApiPayload → ApiOutcome)
    (output : Option (List OutputItem)) : List ApiPayload × HookResult LLMResponse :=
  let textItems := collectOutputTexts output
  if textItems = [] then ([], .ok (.responsesApi output))
  else
    let allText := String.intercalate "\n" (textItems.map fun c => c.text.getD "")
    let payload := ApiPayload.text allText
    match api payload with
    | .fail => ([payload], .error)
    | .ok result =>
      let status := result.status.getD "safe"
      if status = "blocked" then
        ([payload], .rejected (formatBlockMessage result.categoriesDetected))
      else if status = "redacted" then
        match result.processedText with
        | some pt =>
          if pt ≠ "" then ([payload], .ok (.responsesApi (redactOutput output pt)))
          else ([payload], .ok (.responsesApi output))
        | none => ([payload], .ok (.responsesApi output))
      else ([payload], .ok (.responsesApi output))

/-- `async_post_call_success_hook`. -/
def postCallHook (cfg : GuardrailConfig) (keyName : Option String) (data : RequestData)
    (response : LLMResponse) (api : ApiPayload → ApiOutcome) :
    List ApiPayload × HookResult LLMResponse :=
  if ¬ strTruthy cfg.apiKey then ([], .ok response)
  else if ¬ shouldApplyGuardrail cfg data.model keyName then ([], .ok response)
  else
    match response with
    | .responsesApi output => checkResponsesApiOutput api output
    | .modelResponse choices => checkChatCompletionsOutput api choices
    | .other => ([], .ok response)

/-- `sub` occurs as a contiguous substring of `s`. -/
def strContains (s sub : String) : Prop :=
  ∃ pre post, s = pre ++ sub ++ post

/-- Number of qualifying (`output_text`, truthy text) parts in a content list. -/
def countQ (l : List ContentItem) : Nat :=
  (l.filter isOutputTextItem).length

/-- All content parts of a list of output items, in traversal order. -/
def partsOf (items : List OutputItem) : List ContentItem :=
  (items.map fun it => it.content.getD []).flatten

/-- The Python bodies of `async_moderation_hook` and `async_pre_call_hook`
are verbatim duplicates, so the two models coincide. -/
theorem moderationHook_eq_preCallHook : moderationHook = preCallHook := rfl

/-- Every element of a list is a substring of its comma join. -/
theorem joinComma_contains (l : List String) (c : String) (hc : c ∈ l) :
    strContains (joinComma l) c := by
  induction l with
  | nil => cases hc
  | cons a t ih =>
    cases t with
    | nil =>
      rcases List.mem_singleton.mp hc with rfl
      exact ⟨"", "", by simp [joinComma]⟩
    | cons b t' =>
      rcases List.mem_cons.mp hc with rfl | hc'
      · exact ⟨"", ", " ++ joinComma (b :: t'), by
          simp [joinComma, String.append_assoc]⟩
      · rcases ih hc' with ⟨pre, post, hp⟩
        exact ⟨a ++ ", " ++ pre, post, by
          simp [joinComma, hp, String.append_assoc]⟩

/-- Every detected category is a substring of the formatted block message. -/
theorem formatBlockMessage_contains (cats : List String) (c : String) (hc : c ∈ cats) :
    strContains (formatBlockMessage cats) c := by
  have hne : cats ≠ [] := by rintro rfl; cases hc
  rcases joinComma_contains cats c hc with ⟨pre, post, hp⟩
  exact ⟨"Content blocked by Quilr: " ++ pre, post ++ " detected", by
    simp [formatBlockMessage, hne, hp, String.append_assoc]⟩

/-- C5: with no API key configured, every hook is a no-op pass-through: it
posts nothing to the moderation endpoint, performs no mutation, raises
nothing, and returns the data/response unchanged. -/
theorem no_credential_noop (am ak : Option (List String)) (keyName : Option String)
    (data : RequestData) (callType : String) (resp : LLMResponse)
    (api : ApiPayload → ApiOutcome) :
    preCallHook ⟨none, am, ak⟩ keyName data callType api = ([], .ok data) ∧
    moderationHook ⟨none, am, ak⟩ keyName data callType api = ([], .ok data) ∧
    postCallHook ⟨none, am, ak⟩ keyName data resp api = ([], .ok resp) := by
  refine ⟨?_, ?_, ?_⟩ <;>
    simp [preCallHook, moderationHook, postCallHook, strTruthy]

/-- C7: `_responses_input_to_messages` flattens a Responses-API input: truthy
instructions become a leading system message, a string input becomes a single
user message after it, and a list input is appended in its original order. -/
theorem responses_input_flattening (inp : InputData) (instr : Option String) :
    (∀ s, instr = some s → s ≠ "" →
      responsesInputToMessages inp instr =
        ⟨some "system", some s⟩ ::
          (match inp with
           | .str t => [⟨some "user", some t⟩]
           | .list l => l)) ∧
    (strTruthy instr = false →
      responsesInputToMessages inp instr =
        (match inp with
         | .str t => [⟨some "user", some t⟩]
         | .list l => l)) := by
  constructor
  · rintro s rfl hs
    cases inp <;> simp [responsesInputToMessages, strTruthy, hs]
  · intro h
    cases inp <;> simp [responsesInputToMessages, h]

/-- Witness for C7 on a concrete string input with instructions. -/
theorem responses_input_flattening_w :
    responsesInputToMessages (.str "hi") (some "be nice") =
      [⟨some "system", some "be nice"⟩, ⟨some "user", some "hi"⟩] :=
  (responses_input_flattening (.str "hi") (some "be nice")).1 "be nice" rfl (by decide)

/-- The accumulator's message list after the `_messages_to_responses_input`
loop: the non-system messages, in order, appended to the initial list. -/
theorem foldl_splitStep_snd (msgs : List Msg) (i : Option String) (acc : List Msg) :
    (msgs.foldl splitStep (i, acc)).2 =
      acc ++ msgs.filter (fun x => ¬ (x.role = some "system")) := by
  induction msgs generalizing i acc with
  | nil => simp
  | cons m ms ih =>
    by_cases h : m.role = some "system" <;>
      simp [splitStep, h, ih]

/-- The instructions slot after the `_messages_to_responses_input` loop: the
content of the last system-role message, or the initial value if none. -/
theorem foldl_splitStep_fst (msgs : List Msg) (i : Option String) (acc : List Msg) :
    (msgs.foldl splitStep (i, acc)).1 =
      ((msgs.filter (fun x => x.role = some "system")).getLast?).elim i Msg.content := by
  induction msgs using List.reverseRecOn generalizing i acc with
  | nil => simp
  | append_singleton ms m ih =>
    by_cases h : m.role = some "system" <;>
      simp [List.foldl_append, splitStep, h, ih, List.filter_append]

/-- C3: converting a redacted message list back with
`original_input_was_string = true` yields the input as a bare string (the
remaining message's content) whenever exactly one non-system message remains. -/
theorem single_string_roundtrip (msgs : List Msg) (m : Msg) (c : String)
    (hf : msgs.filter (fun x => ¬ (x.role = some "system")) = [m])
    (hc : m.content = some c) :
    (messagesToResponsesInput msgs true).2 = some (.str c) := by
  have h2 := foldl_splitStep_snd msgs none []
  rw [hf, List.nil_append] at h2
  simp only [messagesToResponsesInput, h2]
  simp [hc]

/-- Witness for C3: a system and one redacted user message round-trip to a
bare string. -/
theorem single_string_roundtrip_w :
    (([Msg.mk (some "system") (some "i"), Msg.mk (some "user") (some "redacted")]).filter
        (fun x => ¬ (x.role = some "system")) = [Msg.mk (some "user") (some "redacted")]) ∧
    (messagesToResponsesInput
        [Msg.mk (some "system") (some "i"), Msg.mk (some "user") (some "redacted")] true).2 =
      some (.str "redacted") :=
  ⟨by decide,
    single_string_roundtrip _ (Msg.mk (some "user") (some "redacted")) _ (by decide) rfl⟩

/-- C4: a configured model allow-list that excludes the request's model makes
every hook skip the check entirely — nothing is posted and the payload is
returned unchanged — and in general the gate passes iff the request passes
every configured allow-list (AND), an absent list imposing no restriction. -/
theorem filter_gate (cfg : GuardrailConfig) (keyName : Option String) (data : RequestData)
    (callType : String) (resp : LLMResponse) (l : List String)
    (hl : cfg.allowedModels = some l) (hne : l ≠ [])
    (hm : ∀ m, data.model = some m → m ∉ l) :
    (∀ api, preCallHook cfg keyName data callType api = ([], .ok data)) ∧
    (∀ api, moderationHook cfg keyName data callType api = ([], .ok data)) ∧
    (∀ api, postCallHook cfg keyName data resp api = ([], .ok resp)) ∧
    (∀ (cfg' : GuardrailConfig) (mo ke : Option String),
      shouldApplyGuardrail cfg' mo ke = true ↔
        ((optListTruthy cfg'.allowedModels = true →
            strTruthy mo = true ∧ mo.getD "" ∈ cfg'.allowedModels.getD []) ∧
         (optListTruthy cfg'.allowedKeyNames = true →
            strTruthy ke = true ∧ ke.getD "" ∈ cfg'.allowedKeyNames.getD []))) := by
  have hskip : shouldApplyGuardrail cfg data.model keyName = false := by
    have ht : optListTruthy (some l) = true := by
      simp [optListTruthy, hne]
    cases hmo : data.model with
    | none => simp [shouldApplyGuardrail, ht, hl, strTruthy]
    | some m =>
      have hnm : m ∉ l := hm m hmo
      simp [shouldApplyGuardrail, ht, hl, strTruthy, List.contains, hnm]
  refine ⟨?_, ?_, ?_, ?_⟩
  · intro api
    by_cases hk : strTruthy cfg.apiKey <;> simp [preCallHook, hk, hskip]
  · intro api
    by_cases hk : strTruthy cfg.apiKey <;> simp [moderationHook, hk, hskip]
  · intro api
    by_cases hk : strTruthy cfg.apiKey <;> simp [postCallHook, hk, hskip]
  · intro cfg' mo ke
    rcases cfg' with ⟨k', am', ak'⟩
    by_cases h1 : optListTruthy am' <;> by_cases h2 : optListTruthy ak' <;>
      simp [shouldApplyGuardrail, h1, h2, List.contains, and_assoc]

/-- Witness for C4: model `claude-3` is outside the allow-list `[gpt-4]`, so
the pre-call hook posts nothing and returns the data unchanged. -/
theorem filter_gate_w :
    (["gpt-4"] : List String) ≠ [] ∧
    preCallHook ⟨some "k", some ["gpt-4"], none⟩ none
        ⟨some "claude-3", some [Msg.mk (some "user") (some "x")], none, none, []⟩
        "completion" (fun _ => .fail) =
      ([], .ok ⟨some "claude-3", some [Msg.mk (some "user") (some "x")], none, none, []⟩) :=
  ⟨by decide,
    (filter_gate ⟨some "k", some ["gpt-4"], none⟩ none
        ⟨some "claude-3", some [Msg.mk (some "user") (some "x")], none, none, []⟩
        "completion" .other ["gpt-4"] rfl (by decide)
        (fun m h => by injection h with h; subst h; decide)).1 _⟩

/-- If the verdict neither blocks nor effectively redacts (no truthy
`processed_text`), the chat-completions output loop returns every choice
unchanged. -/
theorem checkChatChoices_id (r : ApiResult)
    (h1 : r.status.getD "safe" ≠ "blocked")
    (h2 : r.status.getD "safe" = "redacted" →
      r.processedText = none ∨ r.processedText = some "") :
    ∀ cs : List ChatChoice, (checkChatChoices (fun _ => .ok r) cs).2 = .ok cs := by
  intro cs
  induction cs with
  | nil => rfl
  | cons c rest ih =>
    cases hm : c.message with
    | none => simp [checkChatChoices, hm, ih, consChoice]
    | some m =>
      cases hc : m.content with
      | none => simp [checkChatChoices, hm, hc, ih, consChoice]
      | some content =>
        by_cases he : content = ""
        · simp [checkChatChoices, hm, hc, he, ih, consChoice]
        · by_cases hred : r.status.getD "safe" = "redacted"
          · rcases h2 hred with hp | hp <;>
              simp [checkChatChoices, hm, hc, he, h1, hred, hp, ih, consChoice, strTruthy]
          · simp [checkChatChoices, hm, hc, he, h1, hred, ih, consChoice]

/-- If the verdict neither blocks nor effectively redacts (no truthy
replacement `messages`), the pre-call hook returns the request unchanged. -/
theorem preCallHook_no_mutation (cfg : GuardrailConfig) (keyName : Option String)
    (data : RequestData) (callType : String) (r : ApiResult)
    (h1 : r.status.getD "safe" ≠ "blocked")
    (h2 : r.status.getD "safe" = "redacted" →
      r.messages = none ∨ r.messages = some []) :
    (preCallHook cfg keyName data callType (fun _ => .ok r)).2 = .ok data := by
  by_cases hk : strTruthy cfg.apiKey
  case neg => simp [preCallHook, hk]
  by_cases hg : shouldApplyGuardrail cfg data.model keyName
  case neg => simp [preCallHook, hk, hg]
  by_cases hct : callType = "aresponses"
  · cases hi : data.input with
    | none => simp [preCallHook, hk, hg, hct, hi]
    | some inp =>
      by_cases hit : inputTruthy inp
      case neg => simp [preCallHook, hk, hg, hct, hi, hit]
      by_cases hred : r.status.getD "safe" = "redacted"
      · rcases h2 hred with hp | hp <;>
          simp [preCallHook, hk, hg, hct, hi, hit, h1, hred, hp]
      · simp [preCallHook, hk, hg, hct, hi, hit, h1, hred]
  · cases hms : data.messages with
    | none => simp [preCallHook, hk, hg, hct, hms]
    | some ms =>
      by_cases he : ms = []
      · simp [preCallHook, hk, hg, hct, hms, he]
      · by_cases hred : r.status.getD "safe" = "redacted"
        · rcases h2 hred with hp | hp <;>
            simp [preCallHook, hk, hg, hct, hms, he, h1, hred, hp]
        · simp [preCallHook, hk, hg, hct, hms, he, h1, hred]

/-- If the verdict neither blocks nor effectively redacts (no truthy
`processed_text`), the post-call hook returns the response unchanged. -/
theorem postCallHook_no_mutation (cfg : GuardrailConfig) (keyName : Option String)
    (data : RequestData) (resp : LLMResponse) (r : ApiResult)
    (h1 : r.status.getD "safe" ≠ "blocked")
    (h2 : r.status.getD "safe" = "redacted" →
      r.processedText = none ∨ r.processedText = some "") :
    (postCallHook cfg keyName data resp (fun _ => .ok r)).2 = .ok resp := by
  by_cases hk : strTruthy cfg.apiKey
  case neg => simp [postCallHook, hk]
  by_cases hg : shouldApplyGuardrail cfg data.model keyName
  case neg => simp [postCallHook, hk, hg]
  cases resp with
  | other => simp [postCallHook, hk, hg]
  | modelResponse choices =>
    have hch := checkChatChoices_id r h1 h2 choices
    simp [postCallHook, hk, hg, checkChatCompletionsOutput, hch]
  | responsesApi output =>
    by_cases hco : collectOutputTexts output = []
    · simp [postCallHook, hk, hg, checkResponsesApiOutput, hco]
    · by_cases hred : r.status.getD "safe" = "redacted"
      · rcases h2 hred with hp | hp <;>
          simp [postCallHook, hk, hg, checkResponsesApiOutput, hco, h1, hred, hp]
      · simp [postCallHook, hk, hg, checkResponsesApiOutput, hco, h1, hred]

/-- C2: on a `safe` verdict — or any status other than `blocked` and
`redacted`, including a missing status field — every hook leaves its payload
unchanged. -/
theorem safe_verdict_no_mutation (cfg : GuardrailConfig) (keyName : Option String)
    (data : RequestData) (callType : String) (resp : LLMResponse) (r : ApiResult)
    (h1 : r.status.getD "safe" ≠ "blocked")
    (h2 : r.status.getD "safe" ≠ "redacted") :
    (preCallHook cfg keyName data callType (fun _ => .ok r)).2 = .ok data ∧
    (moderationHook cfg keyName data callType (fun _ => .ok r)).2 = .ok data ∧
    (postCallHook cfg keyName data resp (fun _ => .ok r)).2 = .ok resp :=
  ⟨preCallHook_no_mutation _ _ _ _ _ h1 (fun h => absurd h h2),
   by
    rw [moderationHook_eq_preCallHook]
    exact preCallHook_no_mutation _ _ _ _ _ h1 (fun h => absurd h h2),
   postCallHook_no_mutation _ _ _ _ _ h1 (fun h => absurd h h2)⟩

/-- Witness for C2: a `safe` verdict leaves a concrete chat request
unchanged. -/
theorem safe_verdict_no_mutation_w :
    ((ApiResult.mk (some "safe") [] none none).status.getD "safe" ≠ "blocked") ∧
    ((ApiResult.mk (some "safe") [] none none).status.getD "safe" ≠ "redacted") ∧
    (preCallHook ⟨some "k", none, none⟩ none
        ⟨some "m", some [Msg.mk (some "user") (some "hi")], none, none, []⟩
        "completion" (fun _ => .ok (ApiResult.mk (some "safe") [] none none))).2 =
      .ok ⟨some "m", some [Msg.mk (some "user") (some "hi")], none, none, []⟩ :=
  ⟨by decide, by decide,
    (safe_verdict_no_mutation ⟨some "k", none, none⟩ none
        ⟨some "m", some [Msg.mk (some "user") (some "hi")], none, none, []⟩
        "completion" .other (ApiResult.mk (some "safe") [] none none)
        (by decide) (by decide)).1⟩

/-- C9: a `redacted` verdict whose replacement payload is missing or empty
(no `messages` list, no truthy `processed_text`) leaves every hook's payload
unchanged and raises nothing, exactly like `safe`. -/
theorem redacted_empty_replacement_noop (cfg : GuardrailConfig) (keyName : Option String)
    (data : RequestData) (callType : String) (resp : LLMResponse) (r : ApiResult)
    (hst : r.status = some "redacted")
    (hmsgs : r.messages = none ∨ r.messages = some [])
    (hpt : r.processedText = none ∨ r.processedText = some "") :
    (preCallHook cfg keyName data callType (fun _ => .ok r)).2 = .ok data ∧
    (moderationHook cfg keyName data callType (fun _ => .ok r)).2 = .ok data ∧
    (postCallHook cfg keyName data resp (fun _ => .ok r)).2 = .ok resp :=
  ⟨preCallHook_no_mutation _ _ _ _ _ (by simp [hst]) (fun _ => hmsgs),
   by
    rw [moderationHook_eq_preCallHook]
    exact preCallHook_no_mutation _ _ _ _ _ (by simp [hst]) (fun _ => hmsgs),
   postCallHook_no_mutation _ _ _ _ _ (by simp [hst]) (fun _ => hpt)⟩

/-- Witness for C9: a `redacted` verdict carrying no replacement leaves a
concrete chat request unchanged. -/
theorem redacted_empty_replacement_noop_w :
    ((ApiResult.mk (some "redacted") [] none none).status = some "redacted") ∧
    (preCallHook ⟨some "k", none, none⟩ none
        ⟨some "m", some [Msg.mk (some "user") (some "hi")], none, none, []⟩
        "completion" (fun _ => .ok (ApiResult.mk (some "redacted") [] none none))).2 =
      .ok ⟨some "m", some [Msg.mk (some "user") (some "hi")], none, none, []⟩ :=
  ⟨rfl,
    (redacted_empty_replacement_noop ⟨some "k", none, none⟩ none
        ⟨some "m", some [Msg.mk (some "user") (some "hi")], none, none, []⟩
        "completion" .other (ApiResult.mk (some "redacted") [] none none)
        rfl (Or.inl rfl) (Or.inl rfl)).1⟩

/-- On a blocking verdict, the chat-completions output loop rejects whenever
it posted anything at all. -/
theorem checkChatChoices_blocked (r : ApiResult)
    (hb : r.status.getD "safe" = "blocked") :
    ∀ cs : List ChatChoice,
      (checkChatChoices (fun _ => .ok r) cs).1 ≠ [] →
      (checkChatChoices (fun _ => .ok r) cs).2 =
        .rejected (formatBlockMessage r.categoriesDetected) := by
  intro cs
  induction cs with
  | nil => intro h; simp [checkChatChoices] at h
  | cons c rest ih =>
    intro h
    cases hm : c.message with
    | none =>
      have h' : (checkChatChoices (fun _ => .ok r) rest).1 ≠ [] := by
        simpa [checkChatChoices, hm] using h
      simp [checkChatChoices, hm, ih h', consChoice]
    | some m =>
      cases hc : m.content with
      | none =>
        have h' : (checkChatChoices (fun _ => .ok r) rest).1 ≠ [] := by
          simpa [checkChatChoices, hm, hc] using h
        simp [checkChatChoices, hm, hc, ih h', consChoice]
      | some content =>
        by_cases he : content = ""
        · have h' : (checkChatChoices (fun _ => .ok r) rest).1 ≠ [] := by
            simpa [checkChatChoices, hm, hc, he] using h
          simp [checkChatChoices, hm, hc, he, ih h', consChoice]
        · simp [checkChatChoices, hm, hc, he, hb]

/-- C1: whenever the moderation endpoint answers with status `blocked`, any
hook that posted content raises a rejection instead of returning it, and the
rejection message contains every detected category name. -/
theorem blocked_verdict_rejects (cfg : GuardrailConfig) (keyName : Option String)
    (data : RequestData) (callType : String) (resp : LLMResponse)
    (cats : List String) (rmsgs : Option (List Msg)) (rpt : Option String) :
    let api := fun _ : ApiPayload => ApiOutcome.ok ⟨some "blocked", cats, rmsgs, rpt⟩
    ((preCallHook cfg keyName data callType api).1 ≠ [] →
      (preCallHook cfg keyName data callType api).2 =
        .rejected (formatBlockMessage cats)) ∧
    ((moderationHook cfg keyName data callType api).1 ≠ [] →
      (moderationHook cfg keyName data callType api).2 =
        .rejected (formatBlockMessage cats)) ∧
    ((postCallHook cfg keyName data resp api).1 ≠ [] →
      (postCallHook cfg keyName data resp api).2 =
        .rejected (formatBlockMessage cats)) ∧
    (∀ c ∈ cats, strContains (formatBlockMessage cats) c) := by
  intro api
  have hpre : (preCallHook cfg keyName data callType api).1 ≠ [] →
      (preCallHook cfg keyName data callType api).2 =
        .rejected (formatBlockMessage cats) := by
    intro h
    by_cases hk : strTruthy cfg.apiKey
    case neg => simp [preCallHook, hk] at h
    by_cases hg : shouldApplyGuardrail cfg data.model keyName
    case neg => simp [preCallHook, hk, hg] at h
    by_cases hct : callType = "aresponses"
    · cases hi : data.input with
      | none => simp [preCallHook, hk, hg, hct, hi] at h
      | some inp =>
        by_cases hit : inputTruthy inp
        case neg => simp [preCallHook, hk, hg, hct, hi, hit] at h
        simp [preCallHook, hk, hg, hct, hi, hit]
    · cases hms : data.messages with
      | none => simp [preCallHook, hk, hg, hct, hms] at h
      | some ms =>
        by_cases he : ms = []
        · simp [preCallHook, hk, hg, hct, hms, he] at h
        · simp [preCallHook, hk, hg, hct, hms, he]
  refine ⟨hpre, ?_, ?_, ?_⟩
  · rw [moderationHook_eq_preCallHook]
    exact hpre
  · intro h
    by_cases hk : strTruthy cfg.apiKey
    case neg => simp [postCallHook, hk] at h
    by_cases hg : shouldApplyGuardrail cfg data.model keyName
    case neg => simp [postCallHook, hk, hg] at h
    cases resp with
    | other => simp [postCallHook, hk, hg] at h
    | modelResponse choices =>
      have h' : (checkChatChoices api choices).1 ≠ [] := by
        simpa [postCallHook, hk, hg, checkChatCompletionsOutput] using h
      have := checkChatChoices_blocked ⟨some "blocked", cats, rmsgs, rpt⟩ rfl choices h'
      simp [postCallHook, hk, hg, checkChatCompletionsOutput, this]
    | responsesApi output =>
      by_cases hco : collectOutputTexts output = []
      · simp [postCallHook, hk, hg, checkResponsesApiOutput, hco] at h
      · simp [postCallHook, hk, hg, checkResponsesApiOutput, hco]
  · exact fun c hc => formatBlockMessage_contains cats c hc

/-- Witness for C1: a concrete chat request is rejected under a `blocked`
verdict with one detected category. -/
theorem blocked_verdict_rejects_w :
    (preCallHook ⟨some "k", none, none⟩ none
        ⟨some "m", some [Msg.mk (some "user") (some "hi")], none, none, []⟩
        "completion" (fun _ => .ok ⟨some "blocked", ["pii"], none, none⟩)).2 =
      .rejected (formatBlockMessage ["pii"]) :=
  (blocked_verdict_rejects ⟨some "k", none, none⟩ none
      ⟨some "m", some [Msg.mk (some "user") (some "hi")], none, none, []⟩
      "completion" .other ["pii"] none none).1 (by decide)

/-- On transport failure the chat-completions output loop either posted
nothing and returned the choices unchanged, or propagates the exception. -/
theorem checkChatChoices_fail (cs : List ChatChoice) :
    checkChatChoices (fun _ => .fail) cs = ([], .ok cs) ∨
    ∃ p, checkChatChoices (fun _ => .fail) cs = ([p], .error) := by
  induction cs with
  | nil => left; rfl
  | cons c rest ih =>
    cases hm : c.message with
    | none =>
      rcases ih with h | ⟨p, h⟩
      · left; simp [checkChatChoices, hm, h, consChoice]
      · right; exact ⟨p, by simp [checkChatChoices, hm, h, consChoice]⟩
    | some m =>
      cases hc : m.content with
      | none =>
        rcases ih with h | ⟨p, h⟩
        · left; simp [checkChatChoices, hm, hc, h, consChoice]
        · right; exact ⟨p, by simp [checkChatChoices, hm, hc, h, consChoice]⟩
      | some content =>
        by_cases he : content = ""
        · rcases ih with h | ⟨p, h⟩
          · left; simp [checkChatChoices, hm, hc, he, h, consChoice]
          · right; exact ⟨p, by simp [checkChatChoices, hm, hc, he, h, consChoice]⟩
        · right
          exact ⟨.text content, by simp [checkChatChoices, hm, hc, he]⟩

/-- C8: a transport failure of the moderation call propagates to the host as
a raised exception; no hook retries (at most the one failing call is made)
and no hook converts the failure into a pass-through of checked content. -/
theorem transport_failure_propagates (cfg : GuardrailConfig) (keyName : Option String)
    (data : RequestData) (callType : String) (resp : LLMResponse) :
    (preCallHook cfg keyName data callType (fun _ => .fail) = ([], .ok data) ∨
      ∃ p, preCallHook cfg keyName data callType (fun _ => .fail) = ([p], .error)) ∧
    (moderationHook cfg keyName data callType (fun _ => .fail) = ([], .ok data) ∨
      ∃ p, moderationHook cfg keyName data callType (fun _ => .fail) = ([p], .error)) ∧
    (postCallHook cfg keyName data resp (fun _ => .fail) = ([], .ok resp) ∨
      ∃ p, postCallHook cfg keyName data resp (fun _ => .fail) = ([p], .error)) := by
  have hpre : preCallHook cfg keyName data callType (fun _ => .fail) = ([], .ok data) ∨
      ∃ p, preCallHook cfg keyName data callType (fun _ => .fail) = ([p], .error) := by
    by_cases hk : strTruthy cfg.apiKey
    case neg => left; simp [preCallHook, hk]
    by_cases hg : shouldApplyGuardrail cfg data.model keyName
    case neg => left; simp [preCallHook, hk, hg]
    by_cases hct : callType = "aresponses"
    · cases hi : data.input with
      | none => left; simp [preCallHook, hk, hg, hct, hi]
      | some inp =>
        by_cases hit : inputTruthy inp
        case neg => left; simp [preCallHook, hk, hg, hct, hi, hit]
        right
        exact ⟨.messages (responsesInputToMessages inp data.instructions.join),
          by simp [preCallHook, hk, hg, hct, hi, hit]⟩
    · cases hms : data.messages with
      | none => left; simp [preCallHook, hk, hg, hct, hms]
      | some ms =>
        by_cases he : ms = []
        · left; simp [preCallHook, hk, hg, hct, hms, he]
        · right
          exact ⟨.messages ms, by simp [preCallHook, hk, hg, hct, hms, he]⟩
  refine ⟨hpre, ?_, ?_⟩
  · rw [moderationHook_eq_preCallHook]
    exact hpre
  · by_cases hk : strTruthy cfg.apiKey
    case neg => left; simp [postCallHook, hk]
    by_cases hg : shouldApplyGuardrail cfg data.model keyName
    case neg => left; simp [postCallHook, hk, hg]
    cases resp with
    | other => left; simp [postCallHook, hk, hg]
    | modelResponse choices =>
      rcases checkChatChoices_fail choices with h | ⟨p, h⟩
      · left; simp [postCallHook, hk, hg, checkChatCompletionsOutput, h]
      · right; exact ⟨p, by simp [postCallHook, hk, hg, checkChatCompletionsOutput, h]⟩
    | responsesApi output =>
      by_cases hco : collectOutputTexts output = []
      · left; simp [postCallHook, hk, hg, checkResponsesApiOutput, hco]
      · right
        exact ⟨.text (String.intercalate "\n"
            ((collectOutputTexts output).map fun c => c.text.getD "")),
          by simp [postCallHook, hk, hg, checkResponsesApiOutput, hco]⟩

/-- The instructions component of `_messages_to_responses_input`: the content
of the last system-role message, or `None` when there is none. -/
theorem messagesToResponsesInput_fst (msgs : List Msg) (b : Bool) :
    (messagesToResponsesInput msgs b).1 =
      ((msgs.filter (fun x => x.role = some "system")).getLast?).elim none Msg.content := by
  simp only [messagesToResponsesInput]
  split <;> exact foldl_splitStep_fst msgs none []

/-- C10: on a Responses-API `redacted` verdict, a replacement list of only
system messages leaves the original `input` in place while `instructions` is
still rewritten from the last system message's content; a replacement list
with no system message deletes the `instructions` key; and in general the
rebuilt instructions are the last system-role message's content.  The
during-call hook behaves identically. -/
theorem redacted_responses_instructions (cfg : GuardrailConfig) (keyName : Option String)
    (data : RequestData) (inp : InputData) (rms : List Msg)
    (cats : List String) (rpt : Option String)
    (hk : strTruthy cfg.apiKey = true)
    (hg : shouldApplyGuardrail cfg data.model keyName = true)
    (hi : data.input = some inp) (hit : inputTruthy inp = true)
    (hne : rms ≠ []) :
    let api := fun _ : ApiPayload => ApiOutcome.ok ⟨some "redacted", cats, some rms, rpt⟩
    (∀ (msgs : List Msg) (b : Bool),
      (messagesToResponsesInput msgs b).1 =
        ((msgs.filter (fun x => x.role = some "system")).getLast?).elim none Msg.content) ∧
    ((∀ m ∈ rms, m.role = some "system") →
      ∃ d', (preCallHook cfg keyName data "aresponses" api).2 = .ok d' ∧
        d'.input = data.input ∧
        d'.instructions = ((rms.getLast?).bind Msg.content).map some) ∧
    ((∀ m ∈ rms, ¬ (m.role = some "system")) →
      ∃ d', (preCallHook cfg keyName data "aresponses" api).2 = .ok d' ∧
        d'.instructions = none) ∧
    moderationHook cfg keyName data "aresponses" api =
      preCallHook cfg keyName data "aresponses" api := by
  intro api
  refine ⟨fun msgs b => messagesToResponsesInput_fst msgs b, ?_, ?_, ?_⟩
  · intro hall
    have hfs : rms.filter (fun x => x.role = some "system") = rms :=
      List.filter_eq_self.mpr (fun m hm => by simp [hall m hm])
    have hfn : rms.filter (fun x => ¬ (x.role = some "system")) = [] :=
      List.filter_eq_nil_iff.mpr (fun m hm => by simp [hall m hm])
    have hfst : ∀ b : Bool, (messagesToResponsesInput rms b).1 =
        rms.getLast?.bind Msg.content := by
      intro b
      rw [messagesToResponsesInput_fst, hfs]
      cases rms.getLast? <;> rfl
    have hsnd : ∀ b : Bool, (messagesToResponsesInput rms b).2 = none := by
      intro b
      have h2 := foldl_splitStep_snd rms none []
      rw [hfn, List.nil_append] at h2
      simp [messagesToResponsesInput, h2]
    cases hlast : rms.getLast?.bind Msg.content with
    | none =>
      refine ⟨{data with instructions := none}, ?_, rfl, by simp [hlast]⟩
      simp [preCallHook, hk, hg, hi, hit, hne, hfst, hsnd, hlast]
    | some s =>
      refine ⟨{data with instructions := some (some s)}, ?_, rfl, by simp [hlast]⟩
      simp [preCallHook, hk, hg, hi, hit, hne, hfst, hsnd, hlast]
  · intro hnone
    have hfs : rms.filter (fun x => x.role = some "system") = [] :=
      List.filter_eq_nil_iff.mpr (fun m hm => by simp [hnone m hm])
    have hfst : ∀ b : Bool, (messagesToResponsesInput rms b).1 = none := by
      intro b
      rw [messagesToResponsesInput_fst, hfs]
      rfl
    cases inp with
    | str s0 =>
      cases hni2 : (messagesToResponsesInput rms true).2 with
      | none =>
        exact ⟨{data with instructions := none},
          by simp [preCallHook, hk, hg, hi, hit, hne, hfst, hni2], rfl⟩
      | some newInp =>
        exact ⟨{data with instructions := none, input := some newInp},
          by simp [preCallHook, hk, hg, hi, hit, hne, hfst, hni2], rfl⟩
    | list l0 =>
      cases hni2 : (messagesToResponsesInput rms false).2 with
      | none =>
        exact ⟨{data with instructions := none},
          by simp [preCallHook, hk, hg, hi, hit, hne, hfst, hni2], rfl⟩
      | some newInp =>
        exact ⟨{data with instructions := none, input := some newInp},
          by simp [preCallHook, hk, hg, hi, hit, hne, hfst, hni2], rfl⟩
  · rw [moderationHook_eq_preCallHook]

/-- Witness for C10: an all-system replacement list leaves a concrete string
input untouched and rewrites the instructions from that system message. -/
theorem redacted_responses_instructions_w :
    ∃ d', (preCallHook ⟨some "k", none, none⟩ none
        ⟨some "m", none, some (.str "hello"), some (some "old"), []⟩
        "aresponses"
        (fun _ => .ok ⟨some "redacted", [],
          some [Msg.mk (some "system") (some "be nice")], none⟩)).2 = .ok d' ∧
      d'.input = some (.str "hello") ∧
      d'.instructions = some (some "be nice") :=
  (redacted_responses_instructions ⟨some "k", none, none⟩ none
      ⟨some "m", none, some (.str "hello"), some (some "old"), []⟩
      (.str "hello") [Msg.mk (some "system") (some "be nice")] [] none
      (by decide) (by decide) rfl (by decide) (by decide)).2.1
    (by decide)

/-- `countQ` over a cons. -/
theorem countQ_cons (c : ContentItem) (cs : List ContentItem) :
    countQ (c :: cs) = (if isOutputTextItem c then 1 else 0) + countQ cs := by
  by_cases h : isOutputTextItem c
  · simp [countQ, List.filter_cons, h]
    omega
  · simp [countQ, List.filter_cons, h]

/-- `countQ` over an append. -/
theorem countQ_append (l1 l2 : List ContentItem) :
    countQ (l1 ++ l2) = countQ l1 + countQ l2 := by
  simp [countQ, List.filter_append]

/-- `partsOf` over a cons. -/
theorem partsOf_cons (it : OutputItem) (l : List OutputItem) :
    partsOf (it :: l) = it.content.getD [] ++ partsOf l := by
  simp [partsOf]

/-- The counter threaded by `redactContentList` advances by the number of
qualifying parts. -/
theorem redactContentList_snd (pt : String) (cs : List ContentItem) (k : Nat) :
    (redactContentList pt cs k).2 = k + countQ cs := by
  induction cs generalizing k with
  | nil => simp [redactContentList, countQ]
  | cons c cs ih =>
    by_cases h : isOutputTextItem c
    · simp [redactContentList, h, ih, countQ_cons]
      omega
    · simp [redactContentList, h, ih, countQ_cons]

/-- `redactContentList` preserves the number of parts. -/
theorem redactContentList_length (pt : String) (cs : List ContentItem) (k : Nat) :
    (redactContentList pt cs k).1.length = cs.length := by
  induction cs generalizing k with
  | nil => rfl
  | cons c cs ih =>
    by_cases h : isOutputTextItem c <;> simp [redactContentList, h, ih]

/-- Positional description of `redactContentList`: a non-qualifying part is
untouched; a qualifying part keeps all fields but its text, which becomes the
redacted text when it is the overall first qualifying part and `""`
otherwise. -/
theorem redactContentList_getElem (pt : String) (cs : List ContentItem) (k i : Nat) :
    (redactContentList pt cs k).1[i]? =
      (cs[i]?).map (fun c =>
        if isOutputTextItem c then
          { c with text := some (if k + countQ (cs.take i) = 0 then pt else "") }
        else c) := by
  induction cs generalizing k i with
  | nil => simp [redactContentList]
  | cons c cs ih =>
    by_cases hq : isOutputTextItem c
    · cases i with
      | zero => simp [redactContentList, hq, countQ]
      | succ i =>
        have harith : k + 1 + countQ (cs.take i) = k + countQ ((c :: cs).take (i + 1)) := by
          simp [List.take_succ_cons, countQ_cons, hq]
          omega
        simp only [redactContentList, hq, if_true, List.getElem?_cons_succ, ih, harith]
    · cases i with
      | zero => simp [redactContentList, hq, countQ]
      | succ i =>
        have harith : k + countQ (cs.take i) = k + countQ ((c :: cs).take (i + 1)) := by
          simp [List.take_succ_cons, countQ_cons, hq]
        simp only [redactContentList]
        rw [if_neg hq]
        simp only [List.getElem?_cons_succ, ih, harith]

/-- `redactOutputList` preserves the number of output items. -/
theorem redactOutputList_length (pt : String) (its : List OutputItem) (k : Nat) :
    (redactOutputList pt its k).1.length = its.length := by
  induction its generalizing k with
  | nil => rfl
  | cons it its ih =>
    cases hc : it.content <;> simp [redactOutputList, hc, ih]

/-- Positional description of `redactOutputList`: each output item keeps its
shape, with its content list redacted starting from the count of qualifying
parts in all earlier items. -/
theorem redactOutputList_getElem (pt : String) (its : List OutputItem) (k j : Nat) :
    (redactOutputList pt its k).1[j]? =
      (its[j]?).map (fun it =>
        { it with content := (it.content.map fun cs =>
            (redactContentList pt cs (k + countQ (partsOf (its.take j)))).1) }) := by
  induction its generalizing k j with
  | nil => simp [redactOutputList]
  | cons it its ih =>
    obtain ⟨cnt⟩ := it
    cases cnt with
    | none =>
      cases j with
      | zero => simp [redactOutputList, partsOf]
      | succ j =>
        simp [redactOutputList, List.take_succ_cons, partsOf_cons, ih]
    | some cs =>
      cases j with
      | zero => simp [redactOutputList, partsOf, countQ]
      | succ j =>
        have hsnd := redactContentList_snd pt cs k
        have harith : k + countQ cs + countQ (partsOf (its.take j)) =
            k + countQ (partsOf ((OutputItem.mk (some cs) :: its).take (j + 1))) := by
          simp [List.take_succ_cons, partsOf_cons, countQ_append]
          omega
        simp only [redactOutputList, List.getElem?_cons_succ, hsnd, ih, harith]

/-- C6: on a Responses-API response, a `redacted` verdict with truthy
`processed_text` rewrites the output in place: the number of output items and
parts is unchanged, non-`output_text` parts are untouched, the globally first
qualifying `output_text` part receives the processed text, and every later
qualifying part's text becomes the empty string. -/
theorem redacted_responses_output (cfg : GuardrailConfig) (keyName : Option String)
    (data : RequestData) (output : Option (List OutputItem))
    (cats : List String) (rmsgs : Option (List Msg)) (pt : String)
    (hk : strTruthy cfg.apiKey = true)
    (hg : shouldApplyGuardrail cfg data.model keyName = true)
    (hpt : pt ≠ "")
    (hco : collectOutputTexts output ≠ []) :
    let api := fun _ : ApiPayload => ApiOutcome.ok ⟨some "redacted", cats, rmsgs, some pt⟩
    postCallHook cfg keyName data (.responsesApi output) api =
      ([ApiPayload.text (String.intercalate "\n"
          ((collectOutputTexts output).map fun c => c.text.getD ""))],
        .ok (.responsesApi (redactOutput output pt))) ∧
    (∀ (its : List OutputItem) (k : Nat),
      (redactOutputList pt its k).1.length = its.length) ∧
    (∀ (its : List OutputItem) (k j : Nat),
      (redactOutputList pt its k).1[j]? =
        (its[j]?).map (fun it =>
          { it with content := (it.content.map fun cs =>
              (redactContentList pt cs (k + countQ (partsOf (its.take j)))).1) })) ∧
    (∀ (cs : List ContentItem) (k : Nat),
      (redactContentList pt cs k).1.length = cs.length) ∧
    (∀ (cs : List ContentItem) (k i : Nat),
      (redactContentList pt cs k).1[i]? =
        (cs[i]?).map (fun c =>
          if isOutputTextItem c then
            { c with text := some (if k + countQ (cs.take i) = 0 then pt else "") }
          else c)) := by
  intro api
  refine ⟨?_, fun its k => redactOutputList_length pt its k,
    fun its k j => redactOutputList_getElem pt its k j,
    fun cs k => redactContentList_length pt cs k,
    fun cs k i => redactContentList_getElem pt cs k i⟩
  simp [postCallHook, hk, hg, checkResponsesApiOutput, hco, hpt, redactOutput]

/-- Witness for C6: a two-part `output_text` response has its first part
replaced and its second cleared. -/
theorem redacted_responses_output_w :
    ("RED" : String) ≠ "" ∧
    postCallHook ⟨some "k", none, none⟩ none
        ⟨some "m", none, none, none, []⟩
        (.responsesApi (some
          [OutputItem.mk (some [ContentItem.mk (some "output_text") (some "t1")]),
           OutputItem.mk (some [ContentItem.mk (some "output_text") (some "t2")])]))
        (fun _ => .ok ⟨some "redacted", [], none, some "RED"⟩) =
      ([ApiPayload.text (String.intercalate "\n"
          ((collectOutputTexts (some
            [OutputItem.mk (some [ContentItem.mk (some "output_text") (some "t1")]),
             OutputItem.mk (some [ContentItem.mk (some "output_text") (some "t2")])])).map
            fun c => c.text.getD ""))],
        .ok (.responsesApi (redactOutput (some
          [OutputItem.mk (some [ContentItem.mk (some "output_text") (some "t1")]),
           OutputItem.mk (some [ContentItem.mk (some "output_text") (some "t2")])]) "RED"))) :=
  ⟨by decide,
    (redacted_responses_output ⟨some "k", none, none⟩ none
        ⟨some "m", none, none, none, []⟩
        (some
          [OutputItem.mk (some [ContentItem.mk (some "output_text") (some "t1")]),
           OutputItem.mk (some [ContentItem.mk (some "output_text") (some "t2")])])
        [] none "RED" (by decide) (by decide) (by decide) (by decide)).1⟩
